import Mathlib

/-!
Verification of rescom's `LegacyCppCodeGenerator` (sources:
`LegacyCppCodeGenerator.cpp`, `StringHelpers.cpp`, `main.cpp`).

The development has two layers:

* a *semantic* layer embedding the behaviour of the code that the generator
  emits (the `lowerBound` binary search, `getResource`, `contains`,
  `getText`, `begin`/`end`), with C strings modelled as byte lists
  (`List Nat`) and null pointers as `Option`;
* an *emission* layer embedding the generator itself as functions producing
  the chunks of text it writes to the output stream, in order.
-/

namespace Rescom

/-- A C string without its terminating NUL, as a list of byte values. -/
abbrev Key := List Nat

/-- Byte-wise lexicographic `<` on C strings.  This is the comparison
performed by the emitted `std::string_view(slot.key) < key`
(`LegacyCppCodeGenerator.cpp` line 133): compare bytes left to right; a
proper prefix is smaller than the longer string. -/
def ltBytes : Key → Key → Bool
  | [], [] => false
  | [], _ :: _ => true
  | _ :: _, [] => false
  | a :: as, b :: bs => if a < b then true else if b < a then false else ltBytes as bs

/-- The `Resource` record of the generated artifact
(`LegacyCppCodeGenerator.cpp` lines 82-90): a key pointer, a bytes pointer
and a size.  Null pointers are modelled as `none`. -/
structure Resource where
  key : Option Key
  size : Nat
  bytes : Option (List Nat)
  deriving DecidableEq, Repr

/-- The generated `details::NullResource{nullptr, 0u, nullptr}`
(`LegacyCppCodeGenerator.cpp` line 150). -/
def nullResource : Resource := ⟨none, 0, none⟩

/-- The emitted `compareSlot(Resource const& slot, char const* key)`
(line 133): `std::string_view(slot.key) < key`.  Table slots always carry a
non-null key; a null key is read as the empty string. -/
def compareSlot (slot : Resource) (key : Key) : Bool :=
  ltBytes (slot.key.getD []) key

/-- The loop of the emitted `lowerBound` (lines 138-145), generic in the
predicate exactly as the C++ is generic in its `Compare` template
parameter.  Positions are indices into the table; `pred i` stands for
`compare(*(base + i), value)`.  The loop keeps `count` as the length of the
remaining half-open range starting at `first`, probes the midpoint
`step = count / 2`, and either advances `first` past the midpoint
(shrinking `count` by `step + 1`) or shrinks `count` to `step`; it stops
when `count = 0`. -/
def lowerBoundLoop (pred : Nat → Bool) (first count : Nat) : Nat :=
  if h : count = 0 then first
  else
    let step := count / 2
    if pred (first + step) then
      lowerBoundLoop pred (first + step + 1) (count - (step + 1))
    else
      lowerBoundLoop pred first step
termination_by count
decreasing_by
  · have hc : 0 < count := Nat.pos_of_ne_zero h
    omega
  · exact Nat.div_lt_self (Nat.pos_of_ne_zero h) (by omega)

/-- Linear reference scan: the smallest position `i` in the half-open range
`[first, first + count)` with `pred i = false`, or `first + count` when
there is none.  This is the specification of the lower bound: the first
element that is *not less* than the query. -/
def firstFalse (pred : Nat → Bool) (first count : Nat) : Nat :=
  match count with
  | 0 => first
  | c + 1 => if pred first then firstFalse pred (first + 1) c else first

/-- The key of a table slot as raw bytes (a null key reads as empty). -/
def slotKey (r : Resource) : Key := r.key.getD []

/-- The table is strictly ascending by key, pairwise: the external
sortedness invariant the generated binary search relies on. -/
def tableSorted (recs : List Resource) : Prop :=
  List.Pairwise (fun a b => ltBytes (slotKey a) (slotKey b) = true) recs

instance (recs : List Resource) : Decidable (tableSorted recs) :=
  inferInstanceAs (Decidable (List.Pairwise _ recs))

/-- The index at which the emitted `lowerBound`'s loop stops, and at which
its confirmation line `first->key != nullptr && std::strcmp(value,
first->key) == 0` (line 146) then reads the table. -/
def searchIndex (recs : List Resource) (v : Key) : Nat :=
  lowerBoundLoop (fun i => compareSlot (recs.getD i nullResource) v) 0 recs.length

/-- The emitted `lowerBound` (lines 135-147) as a whole, returning the
resulting iterator as an offset into the table (`recs.length` stands for
`last`).  A null `value` short-circuits to `last` before the loop
(line 137).  After the loop the confirmation line reads
`first->key`; when `first = last` the C++ reads past the end of the table
(see the safety analysis below) — the read is modelled here as yielding
the null record. -/
def lowerBound (recs : List Resource) (value : Option Key) : Nat :=
  match value with
  | none => recs.length
  | some v =>
    match (recs.getD (searchIndex recs v) nullResource).key with
    | none => recs.length
    | some k => if k = v then searchIndex recs v else recs.length

/-- Generated `getResource` (lines 156-173) as the address it returns:
`none` is the address of `details::NullResource`, `some i` the address of
table slot `i`.  For an empty input list the generator emits the constant
body `return details::NullResource;` (lines 158-161); otherwise it emits
the `lowerBound` call followed by the `it == std::end(...)` check. -/
def getResourceAddr (recs : List Resource) (value : Option Key) : Option Nat :=
  if recs.isEmpty then none
  else
    let it := lowerBound recs value
    if it = recs.length then none else some it

/-- The record the generated `getResource` returns (dereferencing the
address). -/
def getResource (recs : List Resource) (value : Option Key) : Resource :=
  match getResourceAddr recs value with
  | none => nullResource
  | some i => recs.getD i nullResource

/-- Generated `contains` (lines 177-180):
`&getResource(key) != &details::NullResource`, an identity (address)
comparison against the sentinel's storage location. -/
def containsKey (recs : List Resource) (value : Option Key) : Bool :=
  decide (getResourceAddr recs value ≠ none)

/-- Generated `getText` (lines 184-189):
`std::string_view{resource.bytes, resource.size}`, modelled as the pair of
the bytes pointer and the size. -/
def getText (recs : List Resource) (value : Option Key) : Option (List Nat) × Nat :=
  let r := getResource recs value
  (r.bytes, r.size)

/-- Addresses a generated `ResourceIterator` (a `Resource const*`) can
hold: the sentinel's storage location, or a table position. -/
inductive IterAddr where
  | nullAddr : IterAddr
  | tableAddr (i : Nat) : IterAddr
  deriving DecidableEq, Repr

/-- Generated `begin()` (lines 192-196): `&details::NullResource` for an
empty input list, else `std::begin(details::ResourcesIndex)`. -/
def beginIter (recs : List Resource) : IterAddr :=
  if recs.isEmpty then .nullAddr else .tableAddr 0

/-- Generated `end()` (lines 199-203): `&details::NullResource` for an
empty input list, else `std::end(details::ResourcesIndex)`. -/
def endIter (recs : List Resource) : IterAddr :=
  if recs.isEmpty then .nullAddr else .tableAddr recs.length

/-- Specification-side lower bound, from the spec's words: the smallest
position whose element is *not less* than the key (`recs.length` when
every element is less). -/
def specLowerBound (recs : List Resource) (v : Key) : Nat :=
  recs.findIdx (fun r => ! compareSlot r v)

/-- Specification-side resolution, from the spec's words: accept the
lower-bound candidate only when it exists, its key is non-null, and its
key is exactly string-equal to the query; otherwise `last`. -/
def specResolve (recs : List Resource) (v : Key) : Nat :=
  if specLowerBound recs v < recs.length then
    match (recs.getD (specLowerBound recs v) nullResource).key with
    | none => recs.length
    | some k => if k = v then specLowerBound recs v else recs.length
  else recs.length

/-- Demo table with the spec's §8 example data: keys "a" (0x61) and "b"
(0x62), bytes `{0x00, 0xFF}` and `{}`. -/
def demoTable : List Resource :=
  [⟨some [97], 2, some [0, 255]⟩, ⟨some [98], 0, some []⟩]

/-- Model of `toUpper` in `StringHelpers.cpp`: `std::toupper` per character (C locale,
so ASCII case folding, which `Char.toUpper` matches). -/
def toUpper (s : String) : String := String.map Char.toUpper s

/-- Model of `toLower` in `StringHelpers.cpp`: `std::tolower` per character. -/
def toLower (s : String) : String := String.map Char.toLower s

/-- Model of `_tabulation`: `std::string(configuration.tabulationSize, ' ')`
(`LegacyCppCodeGenerator.cpp` line 37). -/
def tabulation (ts : Nat) : String := String.mk (List.replicate ts ' ')

/-- Model of `tab(count)` (lines 42-55): `count` copies of `_tabulation` appended in
a loop (empty for `count = 0`). -/
def tab (ts : Nat) : Nat → String
  | 0 => ""
  | n + 1 => tab ts n ++ tabulation ts

/-- Concatenation of the chunks written to the output stream. -/
def concatChunks : List String → String
  | [] => ""
  | s :: rest => s ++ concatChunks rest

/-- Predicate: `t` occurs as a contiguous substring of `s`. -/
def isSubstr (t s : String) : Prop := ∃ a b, s = a ++ (t ++ b)

/-- One `{key, filePath, size}` input as produced by the configuration
parser (the fields the generator reads: `input.key`, `input.filePath`,
`input.size`). -/
structure Input where
  key : String
  filePath : String
  size : Nat
  deriving DecidableEq, Repr

instance : Inhabited Input := ⟨⟨"", "", 0⟩⟩

/-- The slice of the parsed configuration the generator uses: the stem of
the configuration file path, the tabulation size, and the ordered input
list. -/
structure Configuration where
  configurationFileStem : String
  tabulationSize : Nat
  inputs : List Input

/-- Constant `NamespaceForResourceData` (line 16). -/
def NamespaceForResourceData : String := "rescom"

/-- Constant `HeaderProtectionMacroPrefix` (line 33). -/
def HeaderProtectionMacroPrefix : String := "RESCOM_GENERATED_FILE_"

/-- Model of `_headerProtectionMacroName` (line 38): the prefix followed by the
upper-cased stem of the configuration file path. -/
def headerProtectionMacroName (stem : String) : String :=
  HeaderProtectionMacroPrefix ++ toUpper stem

/-- Model of `makeResourceName` (lines 101-104): `format("R{}", i)`. -/
def makeResourceName (i : Nat) : String := "R" ++ Nat.repr i

/-- One hexadecimal digit, lower case, as printed by `std::hex` on
`std::ostream`. -/
def toHexChar (n : Nat) : Char :=
  if n < 10 then Char.ofNat (48 + n) else Char.ofNat (87 + n)

/-- The hexadecimal digits of `n`, most significant first (empty for 0):
the digit stream `operator<<` produces under `std::hex` before the final
digit for zero is special-cased. -/
def hexDigits (n : Nat) : List Char :=
  if h : n = 0 then [] else hexDigits (n / 16) ++ [toHexChar (n % 16)]
decreasing_by exact Nat.div_lt_self (Nat.pos_of_ne_zero h) (by omega)

/-- Rendering of an `unsigned int` under `std::hex`: lowercase hex digits, no
padding, `"0"` for zero. -/
def toHex (n : Nat) : String :=
  if n = 0 then "0" else String.mk (hexDigits n)

/-- One emitted array element (line 117): `'\x` then the byte's hex value
then the closing quote.  The byte is first cast to `unsigned char`
(modelled by `% 256`, the comment at lines 114-116). -/
def renderByteLiteral (b : Nat) : String :=
  "'\\x" ++ toHex (b % 256) ++ "'"

/-- The element loop of `writeResource` (lines 111-118): a `", "`
separator before every element except the first. -/
def resourceElems : List Nat → Nat → String
  | [], _ => ""
  | b :: bs, i => (if i > 0 then ", " else "") ++ renderByteLiteral b ++ resourceElems bs (i + 1)

/-- The chunks of `writeResource` (lines 106-121): indentation, the
declaration of the array named from the ordinal position, the elements,
and the closing brace. -/
def writeResource (ts inputPosition : Nat) (bytes : List Nat) : List String :=
  [tab ts 2, "static constexpr char const " ++ makeResourceName inputPosition ++ "[] = \x7b",
   resourceElems bytes 0, "\x7d;\n"]

/-- Value of one hexadecimal digit character. -/
def hexDigitVal (c : Char) : Option Nat :=
  if '0' ≤ c ∧ c ≤ '9' then some (c.toNat - 48)
  else if 'a' ≤ c ∧ c ≤ 'f' then some (c.toNat - 87)
  else none

/-- Consume hex digit characters, then a single closing quote. -/
def decodeHexQuote : List Char → Nat → Option Nat
  | [], _ => none
  | c :: rest, acc =>
    if rest.isEmpty then (if c = '\'' then some acc else none)
    else
      match hexDigitVal c with
      | some v => decodeHexQuote rest (16 * acc + v)
      | none => none

/-- Decode a self-terminating escaped byte literal `'\xHH…'` back to its
byte value. -/
def decodeByteLiteral (s : String) : Option Nat :=
  match s.data with
  | '\'' :: '\\' :: 'x' :: rest => decodeHexQuote rest 0
  | _ => none

/-- Accumulating value of a digit-character list. -/
def hexListVal (cs : List Char) (a : Nat) : Nat :=
  cs.foldl (fun acc c => 16 * acc + (hexDigitVal c).getD 0) a

/-- The file system as the generator sees it: a path maps to the file's
byte contents, or to `none` when the file cannot be opened. -/
def FileSystem := String → Option (List Nat)

/-- Model of `loadFile` (lines 18-30): read the whole file, or throw
`std::runtime_error(format("unable to read '{}'", path))`, modelled as
`Except.error` carrying the message. -/
def loadFile (fs : FileSystem) (filePath : String) : Except String (List Nat) :=
  match fs filePath with
  | some bytes => .ok bytes
  | none => .error ("unable to read '" ++ filePath ++ "'")

/-- The data loop of `writeResources` (lines 220-226): for each input in
list order, load the file and emit its resource declaration; the first
load failure aborts the whole generation. -/
def writeResourceChunksFrom (ts : Nat) (fs : FileSystem) :
    List Input → Nat → Except String (List String)
  | [], _ => .ok []
  | inp :: rest, i =>
    match loadFile fs inp.filePath with
    | .error e => .error e
    | .ok bytes =>
      match writeResourceChunksFrom ts fs rest (i + 1) with
      | .error e => .error e
      | .ok chunks => .ok (writeResource ts i bytes ++ chunks)

/-- One index-table entry (line 237):
`{"<key>", <declared size>, <resource name>},` — the size printed is
`input.size`, the declared size from the configuration. -/
def indexEntryChunk (ts i : Nat) (inp : Input) : String :=
  tab ts 3 ++ "\x7b\"" ++ inp.key ++ "\", " ++ Nat.repr inp.size ++ ", "
    ++ makeResourceName i ++ "\x7d,\n"

/-- The index loop of `writeResources` (lines 232-238). -/
def indexEntryChunks (ts : Nat) : List Input → Nat → List String
  | [], _ => []
  | inp :: rest, i => indexEntryChunk ts i inp :: indexEntryChunks ts rest (i + 1)

/-- Model of `writeResources` (lines 206-242): emits nothing for an empty input
list (early return, line 208); otherwise the details namespace opening,
the `ResourcesCount` constant, the loaded resource data, and the
`ResourcesIndex` table. -/
def writeResources (ts : Nat) (fs : FileSystem) (inputs : List Input) :
    Except String (List String) :=
  if inputs.isEmpty then .ok []
  else
    match writeResourceChunksFrom ts fs inputs 0 with
    | .error e => .error e
    | .ok dataChunks =>
      .ok ([tab ts 1, "namespace details \x7b\n",
            tab ts 2,
            "static constexpr unsigned int const ResourcesCount = "
              ++ Nat.repr inputs.length ++ ";\n"]
        ++ dataChunks
        ++ [tab ts 2, "static constexpr Resource const ResourcesIndex[ResourcesCount] = \n",
            tab ts 2, "\x7b\n"]
        ++ indexEntryChunks ts inputs 0
        ++ [tab ts 2, "\x7d;\n",
            tab ts 1, "\x7d // namespace details\n\n"])

/-- The comparison predicate and search function emitted only for a
non-empty input list (lines 132-148). -/
def searchFunctionChunks (ts : Nat) : List String :=
  [tab ts 2,
   "constexpr bool compareSlot(Resource const& slot, char const * key) \x7b return std::string_view(slot.key) < key; \x7d\n\n",
   tab ts 2, "template<class ForwardIt, class Compare>\n",
   tab ts 2, "constexpr ForwardIt lowerBound(ForwardIt first, ForwardIt last, char const* value, Compare compare)\n",
   tab ts 2, "\x7b\n",
   tab ts 3, "if (value == nullptr) return last;\n",
   tab ts 3, "typename std::iterator_traits<ForwardIt>::difference_type count;\n",
   tab ts 3, "typename std::iterator_traits<ForwardIt>::difference_type step;\n",
   tab ts 3, "count = std::distance(first, last);\n",
   tab ts 3, "ForwardIt it;\n",
   tab ts 3, "while (count > 0u) \x7b\n",
   tab ts 4, "it = first; step = count / 2; std::advance(it, step);\n",
   tab ts 4, "if (compare(*it, value)) \x7b first = ++it; count -= step + 1; \x7d else \x7b count = step; \x7d\n",
   tab ts 3, "\x7d\n",
   tab ts 3, "return first->key != nullptr && std::strcmp(value, first->key) == 0 ? first : last;\n",
   tab ts 2, "\x7d\n"]

/-- Model of `writeAccessFunction` (lines 126-204), as the ordered chunk list. -/
def writeAccessFunction (ts : Nat) (inputs : List Input) : List String :=
  [tab ts 1, "namespace details \x7b\n"]
  ++ (if inputs.isEmpty then [] else searchFunctionChunks ts)
  ++ [tab ts 2, "static constexpr Resource const NullResource\x7bnullptr, 0u, nullptr\x7d;\n",
      tab ts 1, "\x7d // namespace details\n\n",
      tab ts 1, "using ResourceIterator = Resource const*;\n\n"]
  ++ (if inputs.isEmpty then
        [tab ts 1, "inline constexpr Resource const& getResource(char const*)\n",
         tab ts 1, "\x7b\n",
         tab ts 2, "return details::NullResource;\n",
         tab ts 1, "\x7d\n"]
      else
        [tab ts 1, "inline constexpr Resource const& getResource(char const* key)\n",
         tab ts 1, "\x7b\n",
         tab ts 2, "auto it = details::lowerBound(std::begin(details::ResourcesIndex), std::end(details::ResourcesIndex), key, details::compareSlot);\n",
         "\n",
         tab ts 2, "if (it == std::end(details::ResourcesIndex))\n",
         tab ts 3, "return details::NullResource;\n",
         "\n",
         tab ts 2, "return *it;\n",
         tab ts 1, "\x7d\n"])
  ++ ["\n",
      tab ts 1, "inline constexpr bool contains(char const* key)\n",
      tab ts 1, "\x7b\n",
      tab ts 2, "return &getResource(key) != &details::NullResource;\n",
      tab ts 1, "\x7d\n",
      "\n",
      tab ts 1, "inline constexpr std::string_view getText(char const* key)\n",
      tab ts 1, "\x7b\n",
      tab ts 2, "auto const& resource = getResource(key);\n",
      "\n",
      tab ts 2, "return std::string_view\x7bresource.bytes, resource.size\x7d;\n",
      tab ts 1, "\x7d\n",
      "\n",
      tab ts 1, "inline constexpr ResourceIterator begin()\n",
      tab ts 1, "\x7b\n",
      tab ts 2,
      (if inputs.isEmpty then "return &details::NullResource;\n"
       else "return std::begin(details::ResourcesIndex);\n"),
      tab ts 1, "\x7d\n",
      "\n",
      tab ts 1, "inline constexpr ResourceIterator end()\n",
      tab ts 1, "\x7b\n",
      tab ts 2,
      (if inputs.isEmpty then "return &details::NullResource;\n"
       else "return std::end(details::ResourcesIndex);\n"),
      tab ts 1, "\x7d\n"]

/-- The fixed include list (lines 67-71). -/
def Includes : List String := ["<iterator>", "<string_view>", "<cstring>"]

/-- Model of `writeFileHeader` (lines 65-91): provenance comment, inclusion guard
pair, include list, namespace opening derived from the lower-cased
configuration-file stem, and the `Resource` record type. -/
def writeFileHeader (ts : Nat) (stem : String) : List String :=
  ["// Generated by Rescom\n",
   "#ifndef " ++ headerProtectionMacroName stem ++ "\n#define "
     ++ headerProtectionMacroName stem ++ "\n"]
  ++ Includes.map (fun inc => "#include " ++ inc ++ "\n")
  ++ ["\n",
      tab ts 0, "namespace ", NamespaceForResourceData, "::", toLower stem, "\n\x7b\n",
      tab ts 1, "struct Resource\n",
      tab ts 1, "\x7b\n",
      tab ts 2, "char const* const key;\n",
      tab ts 2, "char const* const bytes;\n",
      tab ts 2, "unsigned int const size;\n",
      "\n",
      tab ts 2, "constexpr Resource(char const* key, unsigned int size, char const* bytes)\n",
      tab ts 2, ": key(key), bytes(bytes), size(size) \x7b\x7d\n",
      tab ts 1, "\x7d;\n\n"]

/-- Model of `writeFileFooter` (lines 93-99). -/
def writeFileFooter (ts : Nat) (stem : String) : List String :=
  [tab ts 0, "\x7d // namespace ", NamespaceForResourceData, "::", toLower stem, "\n",
   "#endif // " ++ headerProtectionMacroName stem ++ "\n"]

/-- Model of `generate` (lines 57-63): header, resources, access functions, footer,
in that order.  A load failure propagates as the error; the buffered
output stream written before the failure is discarded by the caller
(never flushed to the output file), so error results carry no chunks. -/
def generate (fs : FileSystem) (cfg : Configuration) : Except String (List String) :=
  match writeResources cfg.tabulationSize fs cfg.inputs with
  | .error e => .error e
  | .ok resChunks =>
    .ok (writeFileHeader cfg.tabulationSize cfg.configurationFileStem
      ++ resChunks
      ++ writeAccessFunction cfg.tabulationSize cfg.inputs
      ++ writeFileFooter cfg.tabulationSize cfg.configurationFileStem)

/-- Observable outcome of one `rescom` run (`main.cpp` lines 36-98). -/
structure RunResult where
  exitCode : Nat
  written : Option String
  stdoutText : Option String
  errText : Option String
  deriving DecidableEq, Repr

/-- Model of `main` after configuration parsing (`main.cpp` lines 58-80) together
with `releaseResults` (lines 82-98): generation writes to an in-memory
`ostringstream`; only on success does `releaseResults` flush it to the
output file (when `-o` was given) or to stdout; an exception prints
`Rescom error: <message>` to stderr and exits with code 1, leaving the
output location untouched. -/
def runRescom (fs : FileSystem) (cfg : Configuration)
    (outputPath : Option String) : RunResult :=
  match generate fs cfg with
  | .error e =>
    { exitCode := 1, written := none, stdoutText := none,
      errText := some ("Rescom error: " ++ e ++ "\n") }
  | .ok chunks =>
    match outputPath with
    | some _ =>
      { exitCode := 0, written := some (concatChunks chunks),
        stdoutText := none, errText := none }
    | none =>
      { exitCode := 0, written := none,
        stdoutText := some (concatChunks chunks), errText := none }

theorem firstFalse_all_true (pred : Nat → Bool) :
    ∀ count first m, m ≤ count → (∀ k, k < m → pred (first + k) = true) →
      firstFalse pred first count = firstFalse pred (first + m) (count - m) := by
  intro count
  induction count with
  | zero => intro first m hm _; interval_cases m; rfl
  | succ c ih =>
    intro first m hm hall
    match m with
    | 0 => rfl
    | m + 1 =>
      have h0 : pred first = true := by simpa using hall 0 (by omega)
      show (if pred first then firstFalse pred (first + 1) c else first) = _
      rw [h0]
      simp only [if_true]
      have := ih (first + 1) m (by omega) (fun k hk => by
        have := hall (k + 1) (by omega)
        simpa [Nat.add_assoc, Nat.add_comm 1 k] using this)
      rw [this]
      congr 1
      · omega
      · omega

theorem firstFalse_cut (pred : Nat → Bool) :
    ∀ m count first, m < count → pred (first + m) = false →
      firstFalse pred first count = firstFalse pred first m := by
  intro m
  induction m with
  | zero =>
    intro count first hc hp
    match count, hc with
    | c + 1, _ =>
      show (if pred first then _ else first) = first
      simp only [Nat.add_zero] at hp
      rw [hp]
      rfl
  | succ m ih =>
    intro count first hc hp
    match count, hc with
    | c + 1, hc =>
      show (if pred first then firstFalse pred (first + 1) c else first)
          = (if pred first then firstFalse pred (first + 1) m else first)
      by_cases h0 : pred first = true
      · rw [h0]
        simp only [if_true]
        exact ih c (first + 1) (by omega) (by
          have : first + 1 + m = first + (m + 1) := by omega
          rw [this]; exact hp)
      · rw [Bool.eq_false_iff.mpr h0]
        rfl

/-- Correctness of the emitted binary-search loop: on a range where the
predicate is downward closed (which sortedness of the table guarantees for
`compareSlot · v`), the loop computes exactly the linear scan
`firstFalse`, that is, the smallest position whose element is not less
than the query. -/
theorem lowerBoundLoop_eq_firstFalse (pred : Nat → Bool) :
    ∀ count first,
      (∀ i j, first ≤ i → i ≤ j → j < first + count → pred j = true → pred i = true) →
      lowerBoundLoop pred first count = firstFalse pred first count := by
  intro count
  induction count using Nat.strong_induction_on with
  | _ count ih =>
    intro first hmono
    match hc : count with
    | 0 => rw [lowerBoundLoop]; rfl
    | c + 1 =>
      rw [lowerBoundLoop]
      simp only [dif_neg (Nat.succ_ne_zero c)]
      set step := (c + 1) / 2 with hstep
      have hstep_lt : step < c + 1 := Nat.div_lt_self (by omega) (by omega)
      by_cases hp : pred (first + step) = true
      · rw [if_pos hp]
        have hrec := ih (c + 1 - (step + 1)) (by omega) (first + step + 1)
          (fun i j hi hij hj ht => hmono i j (by omega) hij (by omega) ht)
        rw [hrec]
        have hall : ∀ k, k < step + 1 → pred (first + k) = true := by
          intro k hk
          exact hmono (first + k) (first + step) (by omega) (by omega) (by omega) hp
        have := firstFalse_all_true pred (c + 1) first (step + 1) (by omega) hall
        rw [this, Nat.add_assoc]
      · rw [if_neg hp]
        have hrec := ih step (by omega) first
          (fun i j hi hij hj ht => hmono i j hi hij (by omega) ht)
        rw [hrec]
        exact (firstFalse_cut pred step (c + 1) first (by omega)
          (Bool.eq_false_iff.mpr hp)).symm

theorem ltBytes_irrefl : ∀ a : Key, ltBytes a a = false
  | [] => rfl
  | a :: as => by simp [ltBytes, ltBytes_irrefl as]

theorem ltBytes_trans (a b c : Key) (hab : ltBytes a b = true)
    (hbc : ltBytes b c = true) : ltBytes a c = true := by
  induction a generalizing b c with
  | nil =>
    cases b with
    | nil => simp [ltBytes] at hab
    | cons b bs =>
      cases c with
      | nil => simp [ltBytes] at hbc
      | cons c cs => rfl
  | cons a as ih =>
    cases b with
    | nil => simp [ltBytes] at hab
    | cons b bs =>
      cases c with
      | nil => simp [ltBytes] at hbc
      | cons c cs =>
        simp only [ltBytes] at hab hbc ⊢
        split_ifs at hab hbc ⊢ <;>
          first
            | rfl
            | (exfalso; omega)
            | exact ih bs cs hab hbc
            | simp_all

theorem ltBytes_eq_of_not_lt (a b : Key) (h1 : ltBytes a b = false)
    (h2 : ltBytes b a = false) : a = b := by
  induction a generalizing b with
  | nil =>
    cases b with
    | nil => rfl
    | cons b bs => simp [ltBytes] at h1
  | cons a as ih =>
    cases b with
    | nil => simp [ltBytes] at h2
    | cons b bs =>
      simp only [ltBytes] at h1 h2
      split_ifs at h1 h2 <;>
        first
          | (exfalso; omega)
          | (have hab : a = b := by omega
             rw [hab, ih bs h1 h2])

theorem lowerBound_none (recs : List Resource) : lowerBound recs none = recs.length := rfl

theorem lowerBound_some (recs : List Resource) (v : Key) :
    lowerBound recs (some v)
      = match (recs.getD (searchIndex recs v) nullResource).key with
        | none => recs.length
        | some k => if k = v then searchIndex recs v else recs.length := rfl

theorem firstFalse_shift (pred : Nat → Bool) :
    ∀ count first, firstFalse pred (first + 1) count
      = firstFalse (fun i => pred (i + 1)) first count + 1 := by
  intro count
  induction count with
  | zero => intro first; rfl
  | succ c ih =>
    intro first
    show (if pred (first + 1) then firstFalse pred (first + 1 + 1) c else first + 1)
        = (if pred (first + 1) then firstFalse (fun i => pred (i + 1)) (first + 1) c
           else first) + 1
    by_cases h : pred (first + 1) = true
    · rw [h]; simp only [if_true]; exact ih (first + 1)
    · rw [Bool.eq_false_iff.mpr h]; rfl

theorem firstFalse_eq_findIdx (p : Resource → Bool) :
    ∀ recs : List Resource,
      firstFalse (fun i => p (recs.getD i nullResource)) 0 recs.length
        = recs.findIdx (fun r => ! p r) := by
  intro recs
  induction recs with
  | nil => rfl
  | cons r rs ih =>
    show (if p ((r :: rs).getD 0 nullResource) then
            firstFalse (fun i => p ((r :: rs).getD i nullResource)) 1 rs.length
          else 0)
        = (r :: rs).findIdx (fun r => ! p r)
    rw [List.findIdx_cons]
    by_cases h : p r = true
    · simp only [List.getD_cons_zero, h, if_true, Bool.not_true, cond_false]
      have hshift := firstFalse_shift (fun i => p ((r :: rs).getD i nullResource)) rs.length 0
      simp only [Nat.zero_add] at hshift
      rw [hshift]
      have hfun : (fun i => p ((r :: rs).getD (i + 1) nullResource))
          = (fun i => p (rs.getD i nullResource)) := by
        funext i
        rw [List.getD_cons_succ]
      rw [hfun, ih]
    · have h' : p r = false := by cases hpr : p r <;> simp_all
      simp [h']

theorem compareSlot_mono (recs : List Resource) (hs : tableSorted recs) (v : Key) :
    ∀ i j, 0 ≤ i → i ≤ j → j < 0 + recs.length →
      compareSlot (recs.getD j nullResource) v = true →
      compareSlot (recs.getD i nullResource) v = true := by
  intro i j _ hij hj ht
  rcases Nat.eq_or_lt_of_le hij with rfl | hlt
  · exact ht
  · have hj' : j < recs.length := by omega
    have hi' : i < recs.length := by omega
    have hpair := (List.pairwise_iff_get.mp hs) ⟨i, hi'⟩ ⟨j, hj'⟩ hlt
    rw [List.getD_eq_get recs nullResource hi']
    rw [List.getD_eq_get recs nullResource hj'] at ht
    exact ltBytes_trans _ _ _ hpair ht

/-- On a sorted table, the emitted binary-search loop stops exactly at the
specification's lower bound: the smallest position whose element is not
less than the query. -/
theorem searchIndex_eq_specLowerBound (recs : List Resource)
    (hs : tableSorted recs) (v : Key) :
    searchIndex recs v = specLowerBound recs v := by
  unfold searchIndex specLowerBound
  rw [lowerBoundLoop_eq_firstFalse _ recs.length 0 (compareSlot_mono recs hs v)]
  exact firstFalse_eq_findIdx (fun r => compareSlot r v) recs

theorem findIdx_spec_eq {α : Type} (p : α → Bool) (d : α) :
    ∀ (l : List α) (i : Nat), i < l.length →
      (∀ m, m < i → p (l.getD m d) = false) → p (l.getD i d) = true →
      l.findIdx p = i := by
  intro l
  induction l with
  | nil => intro i hi _ _; exact absurd hi (by simp)
  | cons a l ih =>
    intro i hi hbefore hat
    rw [List.findIdx_cons]
    match i with
    | 0 =>
      simp only [List.getD_cons_zero] at hat
      rw [hat]
      rfl
    | j + 1 =>
      have h0 : p a = false := by simpa using hbefore 0 (by omega)
      rw [h0]
      simp only [cond_false]
      have := ih j (by simpa using hi)
        (fun m hm => by simpa using hbefore (m + 1) (by omega))
        (by simpa using hat)
      omega

theorem lowerBound_eq_specResolve (recs : List Resource) (hs : tableSorted recs)
    (v : Key) : lowerBound recs (some v) = specResolve recs v := by
  rw [lowerBound_some, searchIndex_eq_specLowerBound recs hs v]
  unfold specResolve
  by_cases h : specLowerBound recs v < recs.length
  · rw [if_pos h]
  · rw [if_neg h]
    have hge : recs.length ≤ specLowerBound recs v := by omega
    rw [List.getD_eq_default _ _ hge]
    rfl

theorem lowerBound_present (recs : List Resource) (hs : tableSorted recs)
    (i : Nat) (hi : i < recs.length) (k : Key)
    (hk : (recs.getD i nullResource).key = some k) :
    lowerBound recs (some k) = i := by
  have hspec : specLowerBound recs k = i := by
    unfold specLowerBound
    refine findIdx_spec_eq _ nullResource recs i hi ?_ ?_
    · intro m hm
      have hm' : m < recs.length := by omega
      have hpair := (List.pairwise_iff_get.mp hs) ⟨m, hm'⟩ ⟨i, hi⟩ hm
      have hlt : compareSlot (recs.getD m nullResource) k = true := by
        unfold compareSlot
        rw [List.getD_eq_get recs nullResource hm']
        have : slotKey (recs.get ⟨i, hi⟩) = k := by
          unfold slotKey
          rw [← List.getD_eq_get recs nullResource hi, hk]
          rfl
        rw [← this]
        exact hpair
      simpa using hlt
    · unfold compareSlot
      rw [hk]
      simp [Option.getD, ltBytes_irrefl]
  rw [lowerBound_some, searchIndex_eq_specLowerBound recs hs k, hspec, hk]
  simp

theorem lowerBound_absent (recs : List Resource) (v : Key)
    (habs : ∀ r ∈ recs, r.key ≠ some v) :
    lowerBound recs (some v) = recs.length := by
  rw [lowerBound_some]
  by_cases hlt : searchIndex recs v < recs.length
  · have hmem : recs.getD (searchIndex recs v) nullResource ∈ recs := by
      rw [List.getD_eq_getElem recs nullResource hlt]
      exact List.getElem_mem hlt
    cases hk : (recs.getD (searchIndex recs v) nullResource).key with
    | none => rfl
    | some k =>
      have hne : k ≠ v := by
        intro hkv
        exact habs _ hmem (by rw [hk, hkv])
      simp [hne]
  · have hge : recs.length ≤ searchIndex recs v := by omega
    rw [List.getD_eq_default _ _ hge]
    rfl

theorem sorted_key_unique (recs : List Resource) (hs : tableSorted recs)
    (i j : Nat) (hi : i < recs.length) (hj : j < recs.length) (k : Key)
    (hki : (recs.getD i nullResource).key = some k)
    (hkj : (recs.getD j nullResource).key = some k) : i = j := by
  rcases Nat.lt_trichotomy i j with h | h | h
  · exfalso
    have hpair := (List.pairwise_iff_get.mp hs) ⟨i, hi⟩ ⟨j, hj⟩ h
    rw [← List.getD_eq_get recs nullResource hi,
        ← List.getD_eq_get recs nullResource hj] at hpair
    unfold slotKey at hpair
    rw [hki, hkj] at hpair
    simp [Option.getD, ltBytes_irrefl] at hpair
  · exact h
  · exfalso
    have hpair := (List.pairwise_iff_get.mp hs) ⟨j, hj⟩ ⟨i, hi⟩ h
    rw [← List.getD_eq_get recs nullResource hi,
        ← List.getD_eq_get recs nullResource hj] at hpair
    unfold slotKey at hpair
    rw [hki, hkj] at hpair
    simp [Option.getD, ltBytes_irrefl] at hpair

theorem string_data_append (a b : String) : (a ++ b).data = a.data ++ b.data := rfl

theorem mem_data_concatChunks {c : Char} :
    ∀ {l : List String}, c ∈ (concatChunks l).data ↔ ∃ s ∈ l, c ∈ s.data := by
  intro l
  induction l with
  | nil => simp [concatChunks]
  | cons s rest ih =>
    simp only [concatChunks, string_data_append, List.mem_append, ih, List.mem_cons]
    constructor
    · rintro (h | ⟨t, ht, hc⟩)
      · exact ⟨s, Or.inl rfl, h⟩
      · exact ⟨t, Or.inr ht, hc⟩
    · rintro ⟨t, rfl | ht, hc⟩
      · exact Or.inl hc
      · exact Or.inr ⟨t, ht, hc⟩

theorem mem_data_of_isSubstr {t s : String} (h : isSubstr t s) {c : Char}
    (hc : c ∈ t.data) : c ∈ s.data := by
  obtain ⟨a, b, rfl⟩ := h
  simp only [string_data_append, List.mem_append]
  exact Or.inr (Or.inl hc)

theorem tab_chars (ts : Nat) : ∀ n, ∀ c ∈ (tab ts n).data, c = ' ' := by
  intro n
  induction n with
  | zero => intro c hc; simp [tab] at hc
  | succ n ih =>
    intro c hc
    simp only [tab, string_data_append, List.mem_append] at hc
    rcases hc with hc | hc
    · exact ih c hc
    · simpa [tabulation] using List.eq_of_mem_replicate hc

theorem hexDigitVal_toHexChar (m : Nat) (hm : m < 16) :
    hexDigitVal (toHexChar m) = some m := by
  interval_cases m <;> rfl

theorem hexDigits_all_hex (n : Nat) :
    ∀ c ∈ hexDigits n, (hexDigitVal c).isSome = true := by
  induction n using Nat.strong_induction_on with
  | _ n ih =>
    intro c hc
    rw [hexDigits] at hc
    by_cases h : n = 0
    · simp [h] at hc
    · rw [dif_neg h] at hc
      rcases List.mem_append.mp hc with hc | hc
      · exact ih (n / 16) (Nat.div_lt_self (Nat.pos_of_ne_zero h) (by omega)) c hc
      · have : c = toHexChar (n % 16) := by simpa using hc
        rw [this, hexDigitVal_toHexChar (n % 16) (Nat.mod_lt n (by omega))]
        rfl

theorem hexListVal_hexDigits (n : Nat) :
    ∀ a, hexListVal (hexDigits n) a = a * 16 ^ (hexDigits n).length + n := by
  induction n using Nat.strong_induction_on with
  | _ n ih =>
    intro a
    by_cases h : n = 0
    · subst h
      rw [hexDigits]
      simp [hexListVal]
    · rw [hexDigits, dif_neg h]
      have hdiv := ih (n / 16) (Nat.div_lt_self (Nat.pos_of_ne_zero h) (by omega))
      simp only [hexListVal, List.foldl_append, List.foldl_cons, List.foldl_nil,
        List.length_append, List.length_cons, List.length_nil]
      rw [show (List.foldl (fun acc c => 16 * acc + (hexDigitVal c).getD 0) a
          (hexDigits (n / 16))) = hexListVal (hexDigits (n / 16)) a from rfl]
      rw [hdiv, hexDigitVal_toHexChar (n % 16) (Nat.mod_lt n (by omega))]
      simp only [Option.getD_some]
      rw [pow_succ]
      have := Nat.div_add_mod n 16
      ring_nf
      omega

theorem decodeHexQuote_digits (cs : List Char)
    (hhex : ∀ c ∈ cs, (hexDigitVal c).isSome = true) :
    ∀ a, decodeHexQuote (cs ++ ['\'']) a = some (hexListVal cs a) := by
  induction cs with
  | nil => intro a; rfl
  | cons c cs ih =>
    intro a
    have hc : (hexDigitVal c).isSome = true := hhex c (List.mem_cons_self c cs)
    obtain ⟨v, hv⟩ := Option.isSome_iff_exists.mp hc
    rw [show (c :: cs ++ ['\'']) = c :: (cs ++ ['\'']) from rfl, decodeHexQuote]
    have hne : (cs ++ ['\'']).isEmpty = false := by
      cases cs <;> rfl
    rw [hne]
    simp only [Bool.false_eq_true, if_false, hv]
    rw [ih (fun d hd => hhex d (List.mem_cons_of_mem c hd))]
    simp [hexListVal, hv]

/-- Round trip: decoding the emitted literal of byte `b` gives back `b`. -/
theorem decode_renderByteLiteral (b : Nat) (hb : b < 256) :
    decodeByteLiteral (renderByteLiteral b) = some b := by
  have hmod : b % 256 = b := Nat.mod_eq_of_lt hb
  unfold renderByteLiteral decodeByteLiteral
  rw [hmod]
  by_cases h0 : b = 0
  · subst h0
    rfl
  · have hdata : ("'\\x" ++ toHex b ++ "'").data
        = '\'' :: '\\' :: 'x' :: (hexDigits b ++ ['\'']) := by
      unfold toHex
      rw [if_neg h0]
      simp [string_data_append, String.mk]
    rw [hdata]
    simp only []
    rw [decodeHexQuote_digits (hexDigits b) (hexDigits_all_hex b) 0]
    rw [hexListVal_hexDigits b 0]
    simp

theorem decode_renderByteLiteral_map (bytes : List Nat)
    (hb : ∀ b ∈ bytes, b < 256) :
    bytes.map (fun b => decodeByteLiteral (renderByteLiteral b))
      = bytes.map some := by
  induction bytes with
  | nil => rfl
  | cons b bs ih =>
    simp only [List.map_cons]
    rw [decode_renderByteLiteral b (hb b (List.mem_cons_self b bs)),
      ih (fun x hx => hb x (List.mem_cons_of_mem b hx))]

theorem quote_not_in_toHex (n : Nat) : '\'' ∉ (toHex n).data := by
  unfold toHex
  by_cases h : n = 0
  · rw [if_pos h]
    decide
  · rw [if_neg h]
    intro hmem
    have := hexDigits_all_hex n '\'' hmem
    simp [hexDigitVal] at this

theorem indexEntryChunks_getD (ts : Nat) :
    ∀ (inputs : List Input) (s i : Nat), i < inputs.length →
      (indexEntryChunks ts inputs s).getD i ""
        = indexEntryChunk ts (s + i) (inputs.getD i default) := by
  intro inputs
  induction inputs with
  | nil => intro s i hi; simp at hi
  | cons inp rest ih =>
    intro s i hi
    match i with
    | 0 => simp [indexEntryChunks]
    | j + 1 =>
      show (indexEntryChunks ts rest (s + 1)).getD j ""
        = indexEntryChunk ts (s + (j + 1)) (rest.getD j default)
      rw [ih (s + 1) j (by simpa using hi)]
      congr 1
      omega

theorem writeResources_index_region (ts : Nat) (fs : FileSystem)
    (inputs : List Input) (hne : inputs.isEmpty = false) :
    ∀ chunks, writeResources ts fs inputs = .ok chunks →
      ∃ pre post, chunks = pre ++ indexEntryChunks ts inputs 0 ++ post := by
  intro chunks h
  rw [writeResources, hne] at h
  simp only [Bool.false_eq_true, if_false] at h
  cases hload : writeResourceChunksFrom ts fs inputs 0 with
  | error e =>
    rw [hload] at h
    exact absurd h (by simp)
  | ok dataChunks =>
    rw [hload] at h
    simp only [Except.ok.injEq] at h
    subst h
    refine ⟨[tab ts 1, "namespace details \x7b\n", tab ts 2,
      "static constexpr unsigned int const ResourcesCount = "
        ++ Nat.repr inputs.length ++ ";\n"]
      ++ dataChunks
      ++ [tab ts 2, "static constexpr Resource const ResourcesIndex[ResourcesCount] = \n",
          tab ts 2, "\x7b\n"],
      [tab ts 2, "\x7d;\n", tab ts 1, "\x7d // namespace details\n\n"], ?_⟩
    simp [List.append_assoc]

theorem writeResourceChunksFrom_first_error (ts : Nat) (fs : FileSystem) :
    ∀ (inputs : List Input) (start i : Nat), i < inputs.length →
      fs ((inputs.getD i default).filePath) = none →
      (∀ j, j < i → fs ((inputs.getD j default).filePath) ≠ none) →
      writeResourceChunksFrom ts fs inputs start
        = .error ("unable to read '" ++ (inputs.getD i default).filePath ++ "'") := by
  intro inputs
  induction inputs with
  | nil => intro start i hi; simp at hi
  | cons inp rest ih =>
    intro start i hi hfail hok
    match i with
    | 0 =>
      simp only [List.getD_cons_zero] at hfail ⊢
      unfold writeResourceChunksFrom loadFile
      rw [hfail]
    | j + 1 =>
      have h0 : fs inp.filePath ≠ none := by simpa using hok 0 (by omega)
      obtain ⟨bytes, hbytes⟩ := Option.ne_none_iff_exists'.mp h0
      unfold writeResourceChunksFrom loadFile
      rw [hbytes]
      simp only [List.getD_cons_succ] at hfail ⊢
      rw [ih (start + 1) j (by simpa using hi) hfail
        (fun m hm => by simpa using hok (m + 1) (by omega))]

theorem no_substr_of_missing_char {t s : String} {ch : Char} (hch : ch ∈ t.data)
    (habs : ∀ c ∈ s.data, c ≠ ch) : ¬ isSubstr t s := fun hsub =>
  habs ch (mem_data_of_isSubstr hsub hch) rfl

theorem writeAccessFunction_empty_eq (ts : Nat) :
    writeAccessFunction ts ([] : List Input) =
      [tab ts 1, "namespace details \x7b\n",
       tab ts 2, "static constexpr Resource const NullResource\x7bnullptr, 0u, nullptr\x7d;\n",
       tab ts 1, "\x7d // namespace details\n\n",
       tab ts 1, "using ResourceIterator = Resource const*;\n\n",
       tab ts 1, "inline constexpr Resource const& getResource(char const*)\n",
       tab ts 1, "\x7b\n",
       tab ts 2, "return details::NullResource;\n",
       tab ts 1, "\x7d\n",
       "\n",
       tab ts 1, "inline constexpr bool contains(char const* key)\n",
       tab ts 1, "\x7b\n",
       tab ts 2, "return &getResource(key) != &details::NullResource;\n",
       tab ts 1, "\x7d\n",
       "\n",
       tab ts 1, "inline constexpr std::string_view getText(char const* key)\n",
       tab ts 1, "\x7b\n",
       tab ts 2, "auto const& resource = getResource(key);\n",
       "\n",
       tab ts 2, "return std::string_view\x7bresource.bytes, resource.size\x7d;\n",
       tab ts 1, "\x7d\n",
       "\n",
       tab ts 1, "inline constexpr ResourceIterator begin()\n",
       tab ts 1, "\x7b\n",
       tab ts 2, "return &details::NullResource;\n",
       tab ts 1, "\x7d\n",
       "\n",
       tab ts 1, "inline constexpr ResourceIterator end()\n",
       tab ts 1, "\x7b\n",
       tab ts 2, "return &details::NullResource;\n",
       tab ts 1, "\x7d\n"] := rfl

theorem writeAccessFunction_empty_chars (ts : Nat) :
    ∀ c ∈ (concatChunks (writeAccessFunction ts [])).data, c ≠ 'S' ∧ c ≠ 'B' := by
  intro c hc
  obtain ⟨s, hs, hcs⟩ := mem_data_concatChunks.mp hc
  rw [writeAccessFunction_empty_eq] at hs
  fin_cases hs <;>
    first
      | (have hsp := tab_chars ts _ c hcs
         subst hsp
         exact ⟨by decide, by decide⟩)
      | exact ⟨ne_of_mem_of_not_mem hcs (by decide),
          ne_of_mem_of_not_mem hcs (by decide)⟩

end Rescom

open Rescom

/-- C1: for every table of records with strictly ascending, pairwise
distinct keys (any length, including zero), the generated
`getResource(k)` returns the unique record whose key equals `k` when one
exists, and the sentinel `NullResource` when no record has key `k` or
when `k` is the null pointer. -/
theorem C1_getResource_lookup_correct (recs : List Resource)
    (hs : tableSorted recs) :
    getResource recs none = nullResource ∧
    (∀ i k, i < recs.length → (recs.getD i nullResource).key = some k →
      getResource recs (some k) = recs.getD i nullResource ∧
      ∀ j, j < recs.length → (recs.getD j nullResource).key = some k → j = i) ∧
    (∀ k, (∀ r ∈ recs, r.key ≠ some k) →
      getResource recs (some k) = nullResource) := by
  refine ⟨?_, ?_, ?_⟩
  · by_cases hemp : recs.isEmpty <;>
      simp [getResource, getResourceAddr, lowerBound_none, hemp]
  · intro i k hi hk
    have hlb := lowerBound_present recs hs i hi k hk
    have hemp : recs.isEmpty = false := by
      cases recs
      · simp at hi
      · rfl
    refine ⟨?_, ?_⟩
    · simp [getResource, getResourceAddr, hemp, hlb, Nat.ne_of_lt hi]
    · intro j hj hkj
      exact sorted_key_unique recs hs j i hj hi k hkj hk
  · intro k habs
    by_cases hemp : recs.isEmpty
    · simp [getResource, getResourceAddr, hemp]
    · have hlb := lowerBound_absent recs k habs
      simp [getResource, getResourceAddr, hemp, hlb]

/-- Witness for C1 on the spec's example table. -/
theorem C1_getResource_lookup_correct_witness :
    tableSorted demoTable ∧
    getResource demoTable (some [97]) = demoTable.getD 0 nullResource := by
  refine ⟨by decide, ?_⟩
  exact ((C1_getResource_lookup_correct demoTable (by decide)).2.1 0 [97]
    (by decide) (by decide)).1

/-- C2: on a sorted table the generated compile-time search is equivalent
to the standard lower bound followed by an equality confirmation: a null
query short-circuits to `last`; the loop stops at the smallest position
whose element is not less than the key (`specLowerBound`, the linear
specification); the whole emitted `lowerBound` equals the
lower-bound-then-confirm resolution (`specResolve`); and `getResource`
maps the `last` result to the sentinel and any other result to the table
record it points at. -/
theorem C2_lowerBound_refines_spec (recs : List Resource)
    (hs : tableSorted recs) (v : Key) :
    lowerBound recs none = recs.length ∧
    searchIndex recs v = specLowerBound recs v ∧
    lowerBound recs (some v) = specResolve recs v ∧
    getResource recs (some v)
      = (if lowerBound recs (some v) = recs.length then nullResource
         else recs.getD (lowerBound recs (some v)) nullResource) := by
  refine ⟨lowerBound_none recs, searchIndex_eq_specLowerBound recs hs v,
    lowerBound_eq_specResolve recs hs v, ?_⟩
  by_cases hemp : recs.isEmpty
  · have hnil : recs = [] := by simpa [List.isEmpty_iff] using hemp
    subst hnil
    simp [getResource, getResourceAddr, lowerBound_some]
  · by_cases hit : lowerBound recs (some v) = recs.length <;>
      simp [getResource, getResourceAddr, hemp, hit]

/-- C6 fails on the code: the emitted confirmation line
`return first->key != nullptr && std::strcmp(value, first->key) == 0 ? first : last;`
dereferences `first` unconditionally after the loop, and when the queried
key compares greater than every key in the table the loop stops with
`first == last`.  On the non-empty table holding the single key "a"
(0x61) and the non-null query "b" (0x62), the position the confirmation
reads (`searchIndex`) equals the table length, i.e. the past-the-end
slot `ResourcesIndex[ResourcesCount]`. -/
theorem C6_confirmation_reads_past_the_end :
    searchIndex [Resource.mk (some [97]) 1 (some [48])] [98]
      = ([Resource.mk (some [97]) 1 (some [48])] : List Resource).length ∧
    ltBytes [97] [98] = true := by
  constructor
  · show lowerBoundLoop _ 0 1 = 1
    simp [lowerBoundLoop, compareSlot, nullResource, slotKey, ltBytes]
  · decide

/-- Witness for C2 on the spec's example table. -/
theorem C2_lowerBound_refines_spec_witness :
    tableSorted demoTable ∧
    lowerBound demoTable none = demoTable.length := by
  refine ⟨by decide, ?_⟩
  exact (C2_lowerBound_refines_spec demoTable (by decide) [97]).1

/-- C3: the emitted array literal has exactly one element per input byte,
in the original order; each element is a self-terminating escaped byte
literal (opening quote, `\x` escape whose body contains no quote, closing
quote) whose decoded value equals the source byte; no implicit extra
terminating element is appended; and for an empty byte sequence the
declaration is still emitted, with a zero-element initializer. -/
theorem C3_byte_roundtrip (ts pos : Nat) (bytes : List Nat)
    (hb : ∀ b ∈ bytes, b < 256) :
    (bytes.map renderByteLiteral).length = bytes.length ∧
    bytes.map (fun b => decodeByteLiteral (renderByteLiteral b)) = bytes.map some ∧
    (∀ b ∈ bytes, renderByteLiteral b = "'" ++ ("\\x" ++ toHex (b % 256)) ++ "'" ∧
      '\'' ∉ ("\\x" ++ toHex (b % 256)).data) ∧
    writeResource ts pos bytes
      = [tab ts 2,
         "static constexpr char const " ++ makeResourceName pos ++ "[] = \x7b",
         resourceElems bytes 0, "\x7d;\n"] ∧
    writeResource ts pos []
      = [tab ts 2,
         "static constexpr char const " ++ makeResourceName pos ++ "[] = \x7b",
         "", "\x7d;\n"] := by
  refine ⟨List.length_map bytes renderByteLiteral,
    decode_renderByteLiteral_map bytes hb, ?_, rfl, rfl⟩
  intro b _
  constructor
  · rfl
  · intro hmem
    rw [string_data_append] at hmem
    rcases List.mem_append.mp hmem with h | h
    · simp at h
    · exact quote_not_in_toHex (b % 256) h

/-- Witness for C3 with the byte values 0 and 255. -/
theorem C3_byte_roundtrip_witness :
    (∀ b ∈ [0, 255], b < 256) ∧
    [0, 255].map (fun b => decodeByteLiteral (renderByteLiteral b))
      = [0, 255].map some := by
  refine ⟨by decide, ?_⟩
  exact (C3_byte_roundtrip 4 0 [0, 255] (by decide)).2.1

/-- C7: the generated `contains(key)` is true exactly when the record
`getResource(key)` returns is not the sentinel, decided by comparing the
returned address with the sentinel's storage location; and the generated
`getText(key)` is the view built from the returned record's bytes pointer
and size, which for the sentinel is the constructed empty view (null
bytes pointer, zero size). -/
theorem C7_contains_getText_agree (recs : List Resource) (value : Option Key) :
    (containsKey recs value = true ↔ getResourceAddr recs value ≠ none) ∧
    getText recs value
      = ((getResource recs value).bytes, (getResource recs value).size) ∧
    (getResourceAddr recs value = none →
      getResource recs value = nullResource ∧ getText recs value = (none, 0)) := by
  refine ⟨by simp [containsKey], rfl, ?_⟩
  intro h
  constructor
  · simp [getResource, h]
  · simp [getText, getResource, h, nullResource]

/-- Witness for C7: on the example table with a null query key the
address is the sentinel's, so `getText` is the constructed empty view. -/
theorem C7_contains_getText_agree_witness :
    getResourceAddr demoTable none = none ∧
    (getResource demoTable none = nullResource ∧
      getText demoTable none = (none, 0)) := by
  have haddr : getResourceAddr demoTable none = none := by decide
  exact ⟨haddr, (C7_contains_getText_agree demoTable none).2.2 haddr⟩

/-- C8 as stated is false: the emitted byte-array declaration at position
0 is named `R0` (`makeResourceName` is `format("R{}", i)`), not
`Resource0`. -/
theorem C8_resource_name_counterexample :
    makeResourceName 0 = "R0" ∧ makeResourceName 0 ≠ "Resource0" := by
  decide

/-- C8 amended: the Resource Emitter names the emitted byte-array
declaration `R<N>`, with N the zero-based ordinal position in the input
list, and derives the name deterministically from that ordinal alone. -/
theorem C8_resource_name_from_ordinal (ts pos : Nat) (bytes : List Nat) :
    makeResourceName pos = "R" ++ Nat.repr pos ∧
    writeResource ts pos bytes
      = [tab ts 2,
         "static constexpr char const " ++ ("R" ++ Nat.repr pos) ++ "[] = \x7b",
         resourceElems bytes 0, "\x7d;\n"] :=
  ⟨rfl, rfl⟩

/-- C5: the size value written into each generated index-table entry is
the Input's declared `size` from the configuration, rendered in the entry
text, and the index region of `writeResources` is the same chunk list
`indexEntryChunks` for any two file systems — i.e. independent of the
byte count actually loaded, in particular when the loaded count differs
from the declared size. -/
theorem C5_declared_size_passthrough (ts : Nat) (fs fs' : FileSystem)
    (inputs : List Input) (i : Nat) (hi : i < inputs.length) :
    (indexEntryChunks ts inputs 0).getD i ""
      = tab ts 3 ++ "\x7b\"" ++ (inputs.getD i default).key ++ "\", "
        ++ Nat.repr (inputs.getD i default).size ++ ", "
        ++ makeResourceName i ++ "\x7d,\n" ∧
    (∀ chunks, writeResources ts fs inputs = .ok chunks →
      ∃ pre post, chunks = pre ++ indexEntryChunks ts inputs 0 ++ post) ∧
    (∀ chunks', writeResources ts fs' inputs = .ok chunks' →
      ∃ pre post, chunks' = pre ++ indexEntryChunks ts inputs 0 ++ post) := by
  have hne : inputs.isEmpty = false := by
    cases inputs
    · simp at hi
    · rfl
  refine ⟨?_, writeResources_index_region ts fs inputs hne,
    writeResources_index_region ts fs' inputs hne⟩
  rw [indexEntryChunks_getD ts inputs 0 i hi, Nat.zero_add]
  rfl

/-- Witness for C5: one input whose declared size (5) differs from the
loaded byte count under the first file system (1 byte) and under the
second (0 bytes); the index entry records 5. -/
theorem C5_declared_size_passthrough_witness :
    (0 : Nat) < ([⟨"k", "k.bin", 5⟩] : List Input).length ∧
    (indexEntryChunks 4 [⟨"k", "k.bin", 5⟩] 0).getD 0 ""
      = tab 4 3 ++ "\x7b\"" ++ "k" ++ "\", " ++ Nat.repr 5 ++ ", "
        ++ makeResourceName 0 ++ "\x7d,\n" := by
  refine ⟨by decide, ?_⟩
  exact (C5_declared_size_passthrough 4 (fun _ => some [0])
    (fun _ => some []) [⟨"k", "k.bin", 5⟩] 0 (by decide)).1

/-- C9: the inclusion-guard name is the fixed prefix followed by the
upper-cased stem of the configuration file's base name; the namespace
path is the fixed root `rescom` followed by the lower-cased same stem;
both come from the configuration file name only — the run's generated
text is byte-identical no matter which output file name is chosen — and
the resource symbol names are the same fixed function of the ordinal on
every run. -/
theorem C9_deterministic_naming (fs : FileSystem) (cfg : Configuration)
    (out1 out2 : String) :
    headerProtectionMacroName cfg.configurationFileStem
      = "RESCOM_GENERATED_FILE_" ++ toUpper cfg.configurationFileStem ∧
    NamespaceForResourceData = "rescom" ∧
    (∃ pre post, writeFileHeader cfg.tabulationSize cfg.configurationFileStem
      = pre ++ ["namespace ", NamespaceForResourceData, "::",
                toLower cfg.configurationFileStem] ++ post) ∧
    (∀ i, makeResourceName i = "R" ++ Nat.repr i) ∧
    (runRescom fs cfg (some out1)).written
      = (runRescom fs cfg (some out2)).written := by
  refine ⟨rfl, rfl, ?_, fun i => rfl, ?_⟩
  · exact ⟨["// Generated by Rescom\n",
      "#ifndef " ++ headerProtectionMacroName cfg.configurationFileStem
        ++ "\n#define " ++ headerProtectionMacroName cfg.configurationFileStem
        ++ "\n",
      "#include <iterator>\n", "#include <string_view>\n",
      "#include <cstring>\n", "\n", tab cfg.tabulationSize 0],
      ["\n\x7b\n",
       tab cfg.tabulationSize 1, "struct Resource\n",
       tab cfg.tabulationSize 1, "\x7b\n",
       tab cfg.tabulationSize 2, "char const* const key;\n",
       tab cfg.tabulationSize 2, "char const* const bytes;\n",
       tab cfg.tabulationSize 2, "unsigned int const size;\n",
       "\n",
       tab cfg.tabulationSize 2,
       "constexpr Resource(char const* key, unsigned int size, char const* bytes)\n",
       tab cfg.tabulationSize 2, ": key(key), bytes(bytes), size(size) \x7b\x7d\n",
       tab cfg.tabulationSize 1, "\x7d;\n\n"], rfl⟩
  · cases hgen : generate fs cfg <;> simp [runRescom, hgen]

/-- C10: when an input file cannot be opened (the first such input in
list order), generation aborts at once with an error whose message
contains the offending path, no later input is attempted, the run exits
with code 1 reporting the message on stderr, and nothing is written to
the output location or to stdout. -/
theorem C10_load_failure_aborts (fs : FileSystem) (cfg : Configuration)
    (outPath : Option String) (i : Nat) (hi : i < cfg.inputs.length)
    (hfail : fs ((cfg.inputs.getD i default).filePath) = none)
    (hok : ∀ j, j < i → fs ((cfg.inputs.getD j default).filePath) ≠ none) :
    generate fs cfg
      = .error ("unable to read '" ++ (cfg.inputs.getD i default).filePath ++ "'") ∧
    isSubstr ((cfg.inputs.getD i default).filePath)
      ("unable to read '" ++ (cfg.inputs.getD i default).filePath ++ "'") ∧
    runRescom fs cfg outPath
      = { exitCode := 1, written := none, stdoutText := none,
          errText := some ("Rescom error: "
            ++ ("unable to read '" ++ (cfg.inputs.getD i default).filePath ++ "'")
            ++ "\n") } := by
  have hne : cfg.inputs.isEmpty = false := by
    cases hcase : cfg.inputs
    · rw [hcase] at hi; simp at hi
    · rfl
  have hdata := writeResourceChunksFrom_first_error cfg.tabulationSize fs
    cfg.inputs 0 i hi hfail hok
  have hres : writeResources cfg.tabulationSize fs cfg.inputs
      = .error ("unable to read '" ++ (cfg.inputs.getD i default).filePath ++ "'") := by
    rw [writeResources, hne]
    simp only [Bool.false_eq_true, if_false]
    rw [hdata]
  have hgen : generate fs cfg
      = .error ("unable to read '" ++ (cfg.inputs.getD i default).filePath ++ "'") := by
    rw [generate, hres]
  refine ⟨hgen, ⟨"unable to read '", "'", rfl⟩, ?_⟩
  rw [runRescom, hgen]

/-- Witness for C10: a file system on which every open fails, one input. -/
theorem C10_load_failure_aborts_witness :
    (0 : Nat) < ([⟨"a", "a.txt", 1⟩] : List Input).length ∧
    generate (fun _ => none) ⟨"test", 4, [⟨"a", "a.txt", 1⟩]⟩
      = .error ("unable to read '"
          ++ (([⟨"a", "a.txt", 1⟩] : List Input).getD 0 default).filePath ++ "'") := by
  refine ⟨by decide, ?_⟩
  exact (C10_load_failure_aborts (fun _ => none) ⟨"test", 4, [⟨"a", "a.txt", 1⟩]⟩
    none 0 (by decide) rfl (fun j hj => absurd hj (Nat.not_lt_zero j))).1

/-- C4: for an empty input list, `writeResources` emits nothing (so no
index table and no resources-count constant), the emitted accessor text
contains neither the comparison predicate `compareSlot` nor the search
function `lowerBound`, and the generated accessors are constants:
`getResource` returns the sentinel for every query, `contains` is false
for every query, `getText` yields the zero-length view for every query,
and `begin()` and `end()` both return the sentinel's address. -/
theorem C4_empty_input_constant_accessors (ts : Nat) (fs : FileSystem)
    (value : Option Key) :
    writeResources ts fs [] = .ok [] ∧
    ¬ isSubstr "compareSlot" (concatChunks (writeAccessFunction ts [])) ∧
    ¬ isSubstr "lowerBound" (concatChunks (writeAccessFunction ts [])) ∧
    getResource [] value = nullResource ∧
    containsKey [] value = false ∧
    getText [] value = (none, 0) ∧
    beginIter [] = endIter [] := by
  refine ⟨rfl, ?_, ?_, rfl, rfl, rfl, rfl⟩
  · exact @no_substr_of_missing_char "compareSlot"
      (concatChunks (writeAccessFunction ts [])) 'S'
      (by decide) (fun c hc => (writeAccessFunction_empty_chars ts c hc).1)
  · exact @no_substr_of_missing_char "lowerBound"
      (concatChunks (writeAccessFunction ts [])) 'B'
      (by decide) (fun c hc => (writeAccessFunction_empty_chars ts c hc).2)

